import Mathlib

/-!
Verification development for the power-report dashboard repository
(`backend.py`, `app.py`).

The Python code is shallowly embedded in Lean:
* Python `float` values are modelled by `ℚ` (all arithmetic the code
  performs is exact rational arithmetic: `* 1000`, `/ 1000`, sums and
  percentages);
* Python strings are Lean `String`s, with all computations implemented
  structurally over `List Char` so that every definition is executable
  by kernel reduction;
* file I/O is modelled by an explicit read function `fs : String →
  Option String` (`none` models an unreadable/missing file) and an
  explicit clock string `now` (modelling `datetime.utcnow()`);
* Python exceptions that the code can actually raise (the `TypeError`
  of a string compared against / formatted as a number) are modelled by
  `Except String`;
* each compiled regex of `PowerReportParser.PATTERNS` is embedded as a
  dedicated matching function implementing exactly that pattern with
  Python `re` semantics (leftmost search, ordered alternation,
  greedy/lazy repetition, `re.IGNORECASE`).
-/

/-! ## Python-like string primitives (structural, kernel-executable) -/

/-- Python `str.lower()` for the character set appearing in this code
base: ASCII letters are lowered, `µ` and all other characters are kept
(matching CPython, where `'µ'.lower() == 'µ'`). -/
def pyLower (s : String) : String := String.mk (s.toList.map Char.toLower)

/-- Python `str.strip()`: remove leading and trailing whitespace. -/
def pyStripL (cs : List Char) : List Char :=
  ((cs.dropWhile Char.isWhitespace).reverse.dropWhile Char.isWhitespace).reverse

/-- Python `str.strip()` on `String`. -/
def pyStrip (s : String) : String := String.mk (pyStripL s.toList)

/-- Python `str.split(sep)` for a one-character separator (structural
replacement for `String.splitOn`, which does not reduce in the kernel). -/
def splitOnChar (sep : Char) : List Char → List (List Char)
  | [] => [[]]
  | c :: cs =>
    if c = sep then [] :: splitOnChar sep cs
    else
      match splitOnChar sep cs with
      | h :: t => (c :: h) :: t
      | [] => [[c]]

/-- Python splitting of the content on the newline character, as a list of `String`s. -/
def splitLines (content : String) : List String :=
  (splitOnChar '\x0a' content.toList).map String.mk

/-- Python `str.split()` (no argument): split on whitespace runs,
dropping empty pieces. -/
def pySplitWS (s : String) : List String :=
  ((splitOnChar ' ' (s.toList.map (fun c => if c.isWhitespace then ' ' else c))).filter
    (· ≠ [])).map String.mk

/-- Python `str.startswith(p)`. -/
def pyStartsWith (s p : String) : Bool := p.toList.isPrefixOf s.toList

/-- Python `str.replace(' ', '_')` as used on passthrough metric keys. -/
def replaceSpaceByUnderscore (s : String) : String :=
  String.mk (s.toList.map (fun c => if c = ' ' then '_' else c))

/-- Python string join of parts with a separator (structural replacement
for `String.intercalate`). -/
def strJoin (sep : String) : List String → String
  | [] => ""
  | [x] => x
  | x :: y :: xs => x ++ sep ++ strJoin sep (y :: xs)

/-- Decimal digit run to a natural number. -/
def digitsToNat (cs : List Char) : Nat :=
  cs.foldl (fun acc c => acc * 10 + (c.toNat - '0'.toNat)) 0

/-- Python `float(s)` restricted to the shapes the parser can produce:
an unsigned decimal literal `digits [ '.' [digits] ]` or `'.' digits`
(at least one digit overall).  Any other string yields `none`
(modelling a raised `ValueError`); the development proves that the
regex captures fed to `float` always succeed. -/
def pyFloat (s : String) : Option ℚ :=
  let cs := s.toList
  let d1 := cs.takeWhile Char.isDigit
  let r1 := cs.dropWhile Char.isDigit
  match r1 with
  | [] => if d1.isEmpty then none else some ((digitsToNat d1 : ℕ) : ℚ)
  | '.' :: r2 =>
    let d2 := r2.takeWhile Char.isDigit
    let r3 := r2.dropWhile Char.isDigit
    if r3.isEmpty && !(d1.isEmpty && d2.isEmpty) then
      some (((digitsToNat d1 : ℕ) : ℚ) + ((digitsToNat d2 : ℕ) : ℚ) / (10 : ℚ) ^ d2.length)
    else none
  | _ => none

/-- `pathlib.PurePath.stem`: the final path component without its last
suffix (CPython: drop from the last `'.'` when it is neither the first
nor the last character of the name). -/
def pyStem (name : String) : String :=
  match name.toList.reverse.findIdx? (· = '.') with
  | some k =>
    if 0 < name.toList.length - 1 - k ∧ name.toList.length - 1 - k < name.toList.length - 1
    then String.mk (name.toList.take (name.toList.length - 1 - k)) else name
  | none => name

/-- `pathlib.PurePath.name`: the final component of a `/`-separated
path. -/
def pyPathName (s : String) : String :=
  match (splitOnChar '/' s.toList).getLast? with
  | some c => String.mk c
  | none => s

/-! ## Python `dict` as an insertion-ordered association list -/

/-- `k in d` for a Python dict. -/
def dictContains (d : List (String × α)) (k : String) : Bool :=
  d.any (fun p => p.1 == k)

/-- `d.get(k)` for a Python dict (`none` when absent). -/
def dictGet? (d : List (String × α)) (k : String) : Option α :=
  (d.find? (fun p => p.1 == k)).map (·.2)

/-- `d[k] = v` for a Python dict: replace in place when the key exists
(keeping its position), otherwise append. -/
def dictSet (d : List (String × α)) (k : String) (v : α) : List (String × α) :=
  if dictContains d k then d.map (fun p => if p.1 == k then (k, v) else p)
  else d ++ [(k, v)]

/-! ## The unit normalizers (`backend.py` lines 153-189) -/

/-- `PowerReportParser._normalize_power`: normalize power to mW. -/
def _normalize_power (value : ℚ) (unit : String) : ℚ :=
  let u := pyLower unit
  if u = "w" then value * 1000
  else if u = "µw" then value / 1000
  else value

/-- `PowerReportParser._normalize_frequency`: normalize frequency to MHz. -/
def _normalize_frequency (value : ℚ) (unit : String) : ℚ :=
  let u := pyLower unit
  if u = "ghz" then value * 1000
  else if u = "khz" then value / 1000
  else value

/-- `PowerReportParser._normalize_voltage`: normalize voltage to V. -/
def _normalize_voltage (value : ℚ) (unit : String) : ℚ :=
  let u := pyLower unit
  if u = "mv" then value / 1000
  else value

/-- `PowerReportParser._normalize_duration`: normalize duration to ms. -/
def _normalize_duration (value : ℚ) (unit : String) : ℚ :=
  let u := pyLower unit
  if u = "s" then value * 1000
  else if u = "µs" then value / 1000
  else value

/-! ## Embedded regex matchers for `PowerReportParser.PATTERNS`

Each compiled pattern of the source is embedded as a dedicated matching
function with Python `re` semantics: `search` scans start positions
left to right; alternation is tried in pattern order; `\s+`/`\s*`/`\d+`
are greedy (no backtracking is ever needed against the tokens that
follow them, except for the optional `\.?` of the numeric capture,
which is modelled explicitly); `re.IGNORECASE` is modelled by
lowercasing both sides of literal comparisons. -/

/-- Case-insensitive match of a literal pattern `pat` at the head of
the input; returns the rest of the input on success. -/
def matchCI : List Char → List Char → Option (List Char)
  | [], cs => some cs
  | _ :: _, [] => none
  | p :: ps, c :: cs => if c.toLower = p.toLower then matchCI ps cs else none

/-- `\s*`: greedily drop whitespace. -/
def dropWS (cs : List Char) : List Char := cs.dropWhile Char.isWhitespace

/-- `\s+`: at least one whitespace character, greedy. -/
def matchWS1 (cs : List Char) : Option (List Char) :=
  match cs with
  | c :: rest => if c.isWhitespace then some (rest.dropWhile Char.isWhitespace) else none
  | [] => none

/-- An ordered unit alternation such as `(mW|W|µW)`: the first
alternative (in pattern order) matching at the head wins; the capture
is the matched input text (original casing, as `re` group capture). -/
def matchUnits : List (List Char) → List Char → Option (List Char × List Char)
  | [], _ => none
  | u :: us, cs =>
    match matchCI u cs with
    | some rest => some (cs.take u.length, rest)
    | none => matchUnits us cs

/-- `(\d+\.?\d*)\s*(unit-alternation)`: the numeric capture is a greedy
digit run, then an optional dot with a greedy digit run; when the unit
fails after the dot branch, the `\.?` backtracks to the empty match. -/
def matchNumUnit (units : List (List Char)) (cs : List Char) :
    Option (List Char × List Char) :=
  let d1 := cs.takeWhile Char.isDigit
  let r1 := cs.dropWhile Char.isDigit
  if d1.isEmpty then none
  else
    match r1 with
    | '.' :: r2 =>
      let d2 := r2.takeWhile Char.isDigit
      let r3 := r2.dropWhile Char.isDigit
      match matchUnits units (dropWS r3) with
      | some (u, _) => some (d1 ++ '.' :: d2, u)
      | none =>
        match matchUnits units (dropWS r1) with
        | some (u, _) => some (d1, u)
        | none => none
    | _ =>
      match matchUnits units (dropWS r1) with
      | some (u, _) => some (d1, u)
      | none => none

/-- A `\s+`-separated case-insensitive word sequence such as
`Total\s+Power`. -/
def matchWordSeq : List (List Char) → List Char → Option (List Char)
  | [], cs => some cs
  | [w], cs => matchCI w cs
  | w :: ws, cs =>
    match matchCI w cs with
    | some r =>
      match matchWS1 r with
      | some r2 => matchWordSeq ws r2
      | none => none
    | none => none

/-- One labeled numeric pattern `Label1\s+Label2:\s+(\d+\.?\d*)\s*(units)`
tried at the current position. -/
def matchLabeledAt (words units : List (List Char)) (cs : List Char) :
    Option (List Char × List Char) :=
  match matchWordSeq words cs with
  | some r =>
    match r with
    | ':' :: r2 =>
      match matchWS1 r2 with
      | some r3 => matchNumUnit units r3
      | none => none
    | _ => none
  | none => none

/-- `re.search` for a labeled numeric pattern: try every start position
left to right; returns `(value capture, unit capture)`. -/
def searchLabeled (words units : List (List Char)) : List Char → Option (List Char × List Char)
  | [] => matchLabeledAt words units []
  | c :: cs =>
    match matchLabeledAt words units (c :: cs) with
    | some r => some r
    | none => searchLabeled words units cs

/-- The tail of the verbatim patterns `Timestamp:\s+(.+?)(?:\s|$)` and
`Device:\s+(.+?)(?:\s|$)` after the colon: greedy `\s+`, then a lazy
nonempty capture of non-newline characters stopped by whitespace or the
end of the input.  When only whitespace remains, `\s+` backtracks and
the capture becomes the last non-newline whitespace character. -/
def matchVerbatimTail (cs : List Char) : Option (List Char) :=
  let w := cs.takeWhile Char.isWhitespace
  let r := cs.dropWhile Char.isWhitespace
  if w.isEmpty then none
  else if r.isEmpty then
    match w.reverse.find? (fun c => c ≠ '\x0a') with
    | some c => some [c]
    | none => none
  else some (r.takeWhile (fun c => ¬ c.isWhitespace))

/-- `re.search` for `Word:\s+(.+?)(?:\s|$)` (the `timestamp` and
`device_name` patterns). -/
def searchVerbatim (word : List Char) : List Char → Option (List Char)
  | [] => none
  | c :: cs =>
    match matchCI word (c :: cs) with
    | some (':' :: r2) =>
      match matchVerbatimTail r2 with
      | some cap => some cap
      | none => searchVerbatim word cs
    | _ => searchVerbatim word cs

/-- String-level wrapper for `searchLabeled`. -/
def searchLabeledS (words units : List String) (content : String) :
    Option (String × String) :=
  (searchLabeled (words.map String.toList) (units.map String.toList) content.toList).map
    (fun p => (String.mk p.1, String.mk p.2))

/-- String-level wrapper for `searchVerbatim`. -/
def searchVerbatimS (word : String) (content : String) : Option String :=
  (searchVerbatim word.toList content.toList).map String.mk

/-- The `re.match` of the `metric_line` entry of `PATTERNS`, i.e.
`^(\w+[\w\s]*?):\s+(.+?)$`, against an already-stripped line: group 1
is the maximal run of word/space characters before the first colon
(which must start with a word character), group 2 requires at least one
whitespace character after the colon and captures the rest of the line. -/
def metricLineMatch (stripped : List Char) : Option (List Char × List Char) :=
  let isW := fun c : Char => c.isAlphanum || c = '_'
  match stripped with
  | [] => none
  | c :: _ =>
    if ¬ isW c then none
    else
      let g1 := stripped.takeWhile (fun ch => isW ch || ch.isWhitespace)
      match stripped.dropWhile (fun ch => isW ch || ch.isWhitespace) with
      | ':' :: rest =>
        let ws := rest.takeWhile Char.isWhitespace
        let g2 := rest.dropWhile Char.isWhitespace
        if ws.isEmpty || g2.isEmpty then none else some (g1, g2)
      | _ => none

/-! ## `PowerReportParser._parse_content` (`backend.py` lines 67-151) -/

/-- A value stored in the `metrics` dict: canonical numeric fields are
Python floats, the timestamp/device/passthrough entries are strings. -/
inductive MVal where
  | num (q : ℚ)
  | str (s : String)
deriving DecidableEq

/-- One `raw_metrics` side-table entry: a value (float) and a unit (str). -/
structure RawMetric where
  value : ℚ
  unit : String
deriving DecidableEq

/-- The dictionary returned by `_parse_content`. -/
structure ParsedData where
  filename : String
  parsed_timestamp : String
  metrics : List (String × MVal)
  raw_metrics : List (String × RawMetric)
deriving DecidableEq

/-- One canonical numeric field: its `raw_metrics` key, its `metrics`
key, the label words and unit alternation of its pattern, and its
normalization function (`fun v _ => v` for temperature, which the
source stores verbatim). -/
structure FieldSpec where
  rawKey : String
  metricKey : String
  words : List String
  units : List String
  normalize : ℚ → String → ℚ

/-- The nine canonical numeric fields, in the order the source parses
them: the five power fields (lines 96-105), frequency (108-114),
voltage (117-123), temperature (126-131, stored without conversion) and
duration (134-140). -/
def fieldSpecs : List FieldSpec :=
  [⟨"total", "total_power_mw", ["Total", "Power"], ["mW", "W", "µW"], _normalize_power⟩,
   ⟨"cpu", "cpu_power_mw", ["CPU", "Power"], ["mW", "W", "µW"], _normalize_power⟩,
   ⟨"gpu", "gpu_power_mw", ["GPU", "Power"], ["mW", "W", "µW"], _normalize_power⟩,
   ⟨"memory", "memory_power_mw", ["Memory", "Power"], ["mW", "W", "µW"], _normalize_power⟩,
   ⟨"other", "other_power_mw", ["Other", "Power"], ["mW", "W", "µW"], _normalize_power⟩,
   ⟨"frequency", "frequency_mhz", ["Frequency"], ["MHz", "GHz", "KHz"], _normalize_frequency⟩,
   ⟨"voltage", "voltage_v", ["Voltage"], ["V", "mV"], _normalize_voltage⟩,
   ⟨"temperature", "temperature_c", ["Temperature"], ["°C", "C", "°F", "F"], fun v _ => v⟩,
   ⟨"duration", "duration_ms", ["Duration"], ["s", "ms", "µs"], _normalize_duration⟩]

/-- Parse one canonical numeric field: on a pattern match, store the
normalized value in `metrics` and the raw value/unit pair in
`raw_metrics` (lines 98-105 and the analogous blocks). -/
def applyField (content : String) (acc : List (String × MVal) × List (String × RawMetric))
    (f : FieldSpec) : List (String × MVal) × List (String × RawMetric) :=
  match searchLabeledS f.words f.units content with
  | some (vs, us) =>
    let value := (pyFloat vs).getD 0
    (dictSet acc.1 f.metricKey (.num (f.normalize value us)),
     dictSet acc.2 f.rawKey ⟨value, us⟩)
  | none => acc

/-- The canonical parsing phase of `_parse_content` (lines 85-140):
timestamp, device name, then the nine numeric fields. -/
def canonicalPhase (content : String) :
    List (String × MVal) × List (String × RawMetric) :=
  let m0 : List (String × MVal) := []
  let m1 := match searchVerbatimS "Timestamp" content with
    | some ts => dictSet m0 "timestamp" (.str ts)
    | none => m0
  let m2 := match searchVerbatimS "Device" content with
    | some dv => dictSet m1 "device_name" (.str dv)
    | none => m1
  fieldSpecs.foldl (applyField content) (m2, [])

/-- The key/value capture a single line contributes to the passthrough
loop (lines 143-147): `re.match` of `metric_line` against the stripped
line, skipping comment lines, with the key lowercased and
space-to-underscore translated and the value stripped. -/
def lineCapture (line : String) : Option (String × String) :=
  match metricLineMatch (pyStrip line).toList with
  | some (g1, g2) =>
    if pyStartsWith (pyStrip line) "#" then none
    else some (replaceSpaceByUnderscore (pyLower (String.mk g1)), pyStrip (String.mk g2))
  | none => none

/-- One iteration of the passthrough loop (lines 143-149): store the
captured value only when the key is not already present. -/
def passthroughStep (m : List (String × MVal)) (line : String) : List (String × MVal) :=
  match lineCapture line with
  | some (key, value) => if dictContains m key then m else dictSet m key (.str value)
  | none => m

/-- `PowerReportParser._parse_content`: canonical fields first, then the
passthrough loop over the newline-split content lines.  The wall-clock
`parsed_timestamp` is passed in explicitly (`datetime.utcnow()`). -/
def _parse_content (now content filename : String) : ParsedData :=
  let c := canonicalPhase content
  { filename := filename
    parsed_timestamp := now
    metrics := (splitLines content).foldl passthroughStep c.1
    raw_metrics := c.2 }

/-- The first passthrough capture for a key across a list of lines. -/
def firstCapture (lines : List String) (k : String) : Option String :=
  ((lines.filterMap lineCapture).find? (fun p => p.1 == k)).map (·.2)

/-! ## `parse_file` and the dashboard generator -/

/-- `PowerReportParser.is_valid_report_file`. -/
def is_valid_report_file (filepath : String) : Bool :=
  (".report.avgpwr".toList).isSuffixOf filepath.toList

/-- `PowerReportParser.parse_file` (lines 45-65): `None` for an invalid
name or an unreadable file, otherwise the parsed content.  The file
system is the explicit read function `fs`. -/
def parse_file (now : String) (fs : String → Option String) (filepath : String) :
    Option ParsedData :=
  if is_valid_report_file filepath then
    match fs filepath with
    | some content => some (_parse_content now content filepath)
    | none => none
  else none

/-- Decimal representation of an integer. -/
def intRepr (i : Int) : String :=
  (if i < 0 then "-" else "") ++ Nat.repr i.natAbs

/-- Round half to even (the rounding Python string formatting applies
to exact decimal values). -/
def roundHalfEven (q : ℚ) : Int :=
  let f := q.floor
  let r := q - f
  if r < 1 / 2 then f
  else if 1 / 2 < r then f + 1
  else if f % 2 = 0 then f else f + 1

/-- Python fixed-point string formatting on an exact rational: keeps
`prec` digits after the point, rounding half to even. -/
def formatFixed (prec : Nat) (q : ℚ) : String :=
  let n : Int := roundHalfEven (q * (10 : ℚ) ^ prec)
  let s := Nat.repr n.natAbs
  let s := if s.length < prec + 1 then
    String.mk (List.replicate (prec + 1 - s.length) '0') ++ s else s
  let intLen := s.length - prec
  (if q < 0 then "-" else "") ++ String.mk (s.toList.take intLen) ++
    (if prec = 0 then "" else "." ++ String.mk (s.toList.drop intLen))

/-- Python default string formatting of a metrics value: strings verbatim;
a numeric value prints as `str(float)` does on the integral floats that
can reach this position (non-integral rendering is abbreviated — no
reachable `parsed_data` stores a number in a verbatim-formatted slot). -/
def mvalText : MVal → String
  | .str s => s
  | .num q => if q.den = 1 then intRepr q.num ++ ".0"
      else intRepr q.num ++ "e-" ++ Nat.repr q.den

/-- `HTMLDashboardGenerator.CSS_TEMPLATE`.  The literal stylesheet text
is presentation-only (no claim depends on a character of it); it is
abbreviated here to a placeholder carrying its delimiters. -/
def CSS_TEMPLATE : String :=
  "\x0a    <style>\x0a        (stylesheet text elided)\x0a    </style>\x0a    "

/-- `HTMLDashboardGenerator._get_power_class` (lines 476-483). -/
def _get_power_class (power_mw : ℚ) : String :=
  if power_mw > 10000 then "metric-card power-critical"
  else if power_mw > 5000 then "metric-card power-warning"
  else "metric-card power-normal"

/-- `HTMLDashboardGenerator._build_metric_card` (lines 485-494). -/
def _build_metric_card (label : String) (value : ℚ) (unit : String) (css_class : String) :
    String :=
  "            <div class=\"" ++ css_class ++ "\">" ++
  "                <div class=\"metric-label\">" ++ label ++ "</div>" ++
  "                <div class=\"metric-value\">" ++ formatFixed 2 value ++ "</div>" ++
  "                <div class=\"metric-unit\">" ++ unit ++ "</div>" ++
  "            </div>"

/-- The percentage computed by `_build_breakdown_item` (line 499):
`(value / total * 100) if total > 0 else 0`. -/
def breakdownPercentage (value total : ℚ) : ℚ :=
  if total > 0 then value / total * 100 else 0

/-- `HTMLDashboardGenerator._build_breakdown_item` (lines 496-508). -/
def _build_breakdown_item (label : String) (value total : ℚ) : String :=
  "                <div class=\"breakdown-item\">" ++
  "                    <div class=\"breakdown-item-label\">" ++ label ++ "</div>" ++
  "                    <div class=\"breakdown-item-value\">" ++ formatFixed 2 value ++ " mW</div>" ++
  "                    <div class=\"progress-bar\">" ++
  "                        <div class=\"progress-fill\" style=\"width: " ++
    formatFixed 1 (breakdownPercentage value total) ++ "%\"></div>" ++
  "                    </div>" ++
  "                </div>"

/-- The seven metric cards of lines 442-448, as
`(label, value, unit, css class)` argument tuples in source order: the
total-power card carries the severity class, every other card the plain
`metric-card` class. -/
def metricCardArgs (total_power cpu_power gpu_power memory_power frequency voltage
    temperature : ℚ) : List (String × ℚ × String × String) :=
  [("Total Power", total_power, "mW", _get_power_class total_power),
   ("CPU Power", cpu_power, "mW", "metric-card"),
   ("GPU Power", gpu_power, "mW", "metric-card"),
   ("Memory Power", memory_power, "mW", "metric-card"),
   ("Frequency", frequency, "MHz", "metric-card"),
   ("Voltage", voltage, "V", "metric-card"),
   ("Temperature", temperature, "°C", "metric-card")]

/-- The `html_parts` list of `generate_html_dashboard` (lines 420-472),
given the extracted metric values. -/
def html_parts (now filename : String)
    (total_power cpu_power gpu_power memory_power frequency voltage temperature : ℚ)
    (timestamp device_name : MVal) : List String :=
  [ "<!DOCTYPE html>",
    "<html lang=\"en\">",
    "<head>",
    "    <meta charset=\"UTF-8\">",
    "    <meta name=\"viewport\" content=\"width=device-width, initial-scale=1.0\">",
    "    <title>Power Dashboard - " ++ pyStem filename ++ "</title>",
    CSS_TEMPLATE,
    "</head>",
    "<body>",
    "    <div class=\"dashboard\">",
    "        <div class=\"dashboard-header\">",
    "            <div class=\"dashboard-title\">⚡ Power Performance Dashboard</div>",
    "            <div class=\"dashboard-subtitle\">Device: " ++ mvalText device_name ++ "</div>",
    "            <div class=\"dashboard-subtitle\">Report Time: " ++ mvalText timestamp ++ "</div>",
    "            <div class=\"dashboard-filename\">Source: " ++ pyPathName filename ++ "</div>",
    "        </div>",
    "        <div class=\"metrics-container\">" ] ++
  ((metricCardArgs total_power cpu_power gpu_power memory_power frequency voltage
      temperature).map (fun a => _build_metric_card a.1 a.2.1 a.2.2.1 a.2.2.2)) ++
  [ "        </div>",
    "        <div class=\"breakdown-section\">",
    "            <div class=\"breakdown-title\">Power Distribution Breakdown</div>",
    "            <div class=\"power-breakdown\">",
    _build_breakdown_item "CPU" cpu_power total_power,
    _build_breakdown_item "GPU" gpu_power total_power,
    _build_breakdown_item "Memory" memory_power total_power,
    "            </div>",
    "        </div>",
    "        <div class=\"footer\">",
    "            Generated on " ++ now ++ " | Power Report Dashboard",
    "        </div>",
    "    </div>",
    "</body>",
    "</html>" ]

/-- Extraction of a metrics value in a numeric position: a Python
`str` value raises `TypeError` the moment it is compared against a
number (`_get_power_class`) or formatted with `:.2f`; both failure
points are modelled by this single conversion. -/
def mvNum : MVal → Except String ℚ
  | .num q => .ok q
  | .str _ => .error "TypeError"

/-- `metrics.get(key, default)`. -/
def mGetD (m : List (String × MVal)) (k : String) (d : MVal) : MVal :=
  (dictGet? m k).getD d

/-- `HTMLDashboardGenerator.generate_html_dashboard` (lines 392-474):
extract the metric values (defaulting to `0`, to `N/A` and to
`Unknown Device`), classify the total power, and join `html_parts` by newlines.
The result is `Except` because the source raises `TypeError` whenever a
passthrough *string* ended up under one of the numeric keys. -/
def generate_html_dashboard (now : String) (pd : ParsedData) : Except String String := do
  let metrics := pd.metrics
  let total_power ← mvNum (mGetD metrics "total_power_mw" (.num 0))
  let cpu_power ← mvNum (mGetD metrics "cpu_power_mw" (.num 0))
  let gpu_power ← mvNum (mGetD metrics "gpu_power_mw" (.num 0))
  let memory_power ← mvNum (mGetD metrics "memory_power_mw" (.num 0))
  let frequency ← mvNum (mGetD metrics "frequency_mhz" (.num 0))
  let voltage ← mvNum (mGetD metrics "voltage_v" (.num 0))
  let temperature ← mvNum (mGetD metrics "temperature_c" (.num 0))
  let timestamp := mGetD metrics "timestamp" (.str "N/A")
  let device_name := mGetD metrics "device_name" (.str "Unknown Device")
  pure (strJoin "\x0a" (html_parts now pd.filename total_power cpu_power gpu_power
    memory_power frequency voltage temperature timestamp device_name))

/-- `HTMLDashboardGenerator.generate_dashboard_from_file` (lines
510-523). -/
def generate_dashboard_from_file (now : String) (fs : String → Option String)
    (filepath : String) : Except String (Option String) :=
  match parse_file now fs filepath with
  | none => .ok none
  | some pd => (generate_html_dashboard now pd).map some

/-! ## `process_power_reports` (`backend.py` lines 526-568) -/

/-- Line 556: the output document name is the stem of the report file
with the `.html` extension appended. -/
def output_filename (name : String) : String := pyStem name ++ ".html"

/-- The body of the processing loop (lines 549-566) for one report
file: generate the dashboard; when it is truthy, record
`results[report_file.name] = output_filename` (the HTML write is a
side effect outside the returned mapping). -/
def processStep (now : String) (fs : String → Option String)
    (results : List (String × String)) (name : String) :
    Except String (List (String × String)) := do
  let html ← generate_dashboard_from_file now fs name
  match html with
  | some h => if h = "" then pure results else pure (dictSet results name (output_filename name))
  | none => pure results

/-- `process_power_reports`: fold the loop body over the directory
listing (the glob of `*.report.avgpwr` names, in iteration order).
An uncaught `TypeError` from the generator aborts the whole loop, as
in the source (there is no `try` around it). -/
def process_power_reports (now : String) (fs : String → Option String)
    (files : List String) : Except String (List (String × String)) :=
  files.foldlM (processStep now fs) []

/-- The generated output identifier for one input file name, when
processing it succeeds and contributes to the mapping. -/
def genId (now : String) (fs : String → Option String) (name : String) : Option String :=
  match generate_dashboard_from_file now fs name with
  | .ok (some h) => if h = "" then none else some (output_filename name)
  | _ => none

/-- First-seen-order deduplication, parameterized by the identifiers
already seen. -/
def firstSeenDedupAux (seen : List String) : List String → List String
  | [] => []
  | x :: xs =>
    if x ∈ seen then firstSeenDedupAux seen xs
    else x :: firstSeenDedupAux (x :: seen) xs

/-- First-seen-order deduplication: `[A, B, A, C] ↦ [A, B, C]`. -/
def firstSeenDedup (l : List String) : List String := firstSeenDedupAux [] l

/-! ## The entry point `index` (`app.py` lines 41-88) -/

/-- The three outcomes of a POST to `index`: `abort(400)`,
`abort(500)`, or a rendered page carrying the generated identifiers. -/
inductive AppResponse where
  | badRequest
  | generationFailure
  | ok (generated : List String)
deriving DecidableEq

/-- The POST branch of `index` (lines 46-81): validate the selected
designs and the stripped die label, run the selected pipeline, and
reject with a distinct failure when it generated nothing.  The pipeline
is passed as a function, so that the validation path is manifestly
independent of it. -/
def index_post (selected_designs : List String) (dieRaw : String)
    (run : List String → String → List String) : AppResponse :=
  let die := pyStrip dieRaw
  if selected_designs.isEmpty || die.isEmpty then .badRequest
  else
    let generated := run selected_designs die
    if generated.isEmpty then .generationFailure else .ok generated

/-! ## The timing report parser (spec §4.1)

The module `backend.backend_timing` that `app.py` imports is not part
of the source tree; only its caller is.  The parser below is therefore
modelled from the specification. -/

/-- A setup or hold violation summary; every field defaults to the
string `"0"`. -/
structure ViolationSummary where
  wns : String
  tns : String
  num : String
deriving DecidableEq

/-- Modelled from the spec: the states of the timing-report line
machine of `backend.backend_timing` (missing from the source tree):
`{NONE, SETUP, HOLD}`. -/
inductive TimingState where
  | idle
  | setup
  | hold
deriving DecidableEq

/-- In-progress summary: fields not yet seen are `none` and default to
`"0"` at the end; a field is only written once (first occurrence per
key wins). -/
structure PartialVS where
  wns : Option String
  tns : Option String
  num : Option String

/-- Record a `(key, value)` pair into an in-progress summary, first
occurrence winning. -/
def recordKV (vs : PartialVS) (k v : String) : PartialVS :=
  if k = "WNS" then { vs with wns := vs.wns.orElse (fun _ => some v) }
  else if k = "TNS" then { vs with tns := vs.tns.orElse (fun _ => some v) }
  else if k = "NUM" then { vs with num := vs.num.orElse (fun _ => some v) }
  else vs

/-- The machine state while scanning a timing report. -/
structure TimingScan where
  st : TimingState
  afterTotal : Bool
  setup : PartialVS
  hold : PartialVS

/-- Modelled from the spec: one line step of the timing parser of
`backend.backend_timing` (missing from the source tree).  Transition on
the exact lines `"Setup violations"` / `"Hold violations"` /
`"No setup/hold violations found"`; inside a section a line starting
with `"Total"` marks the header boundary, and subsequent lines are
whitespace-separated `(key, value)` pairs with key in
`{WNS, TNS, NUM}`. -/
def timingStep (sc : TimingScan) (line : String) : TimingScan :=
  if line = "Setup violations" then { sc with st := .setup, afterTotal := false }
  else if line = "Hold violations" then { sc with st := .hold, afterTotal := false }
  else if line = "No setup/hold violations found" then { sc with st := .idle, afterTotal := false }
  else
    match sc.st with
    | .idle => sc
    | .setup =>
      if pyStartsWith line "Total" then { sc with afterTotal := true }
      else if sc.afterTotal then
        match pySplitWS line with
        | k :: v :: _ => { sc with setup := recordKV sc.setup k v }
        | _ => sc
      else sc
    | .hold =>
      if pyStartsWith line "Total" then { sc with afterTotal := true }
      else if sc.afterTotal then
        match pySplitWS line with
        | k :: v :: _ => { sc with hold := recordKV sc.hold k v }
        | _ => sc
      else sc

/-- Default every missing field to `"0"`. -/
def finalizeVS (vs : PartialVS) : ViolationSummary :=
  ⟨vs.wns.getD "0", vs.tns.getD "0", vs.num.getD "0"⟩

/-- Modelled from the spec: `backend.backend_timing`, the timing-report
parser used by `run_chip` (missing from the source tree).  Input is the
result of reading the report file (`none` = unreadable); output is
always a `(setup, hold)` pair, every field defaulting to `"0"`. -/
def backend_timing (input : Option (List String)) : ViolationSummary × ViolationSummary :=
  match input with
  | none => (⟨"0", "0", "0"⟩, ⟨"0", "0", "0"⟩)
  | some ls =>
    let sc := ls.foldl timingStep ⟨.idle, false, ⟨none, none, none⟩, ⟨none, none, none⟩⟩
    (finalizeVS sc.setup, finalizeVS sc.hold)

/-! ## Claim C1: exact unit normalization -/

/-- C1: unit normalization is exact for every recognized unit token,
case-insensitively: power `W`/`µW`/`mW` map to `value*1000`,
`value/1000`, `value`; frequency `GHz`/`kHz`/`MHz` to `value*1000`,
`value/1000`, `value`; voltage `mV`/`V` to `value/1000`, `value`;
duration `s`/`µs`/`ms` to `value*1000`, `value/1000`, `value`. -/
theorem C1_unit_normalization_exact (v : ℚ) (u : String) :
    (pyLower u = "w" → _normalize_power v u = v * 1000) ∧
    (pyLower u = "µw" → _normalize_power v u = v / 1000) ∧
    (pyLower u = "mw" → _normalize_power v u = v) ∧
    (pyLower u = "ghz" → _normalize_frequency v u = v * 1000) ∧
    (pyLower u = "khz" → _normalize_frequency v u = v / 1000) ∧
    (pyLower u = "mhz" → _normalize_frequency v u = v) ∧
    (pyLower u = "mv" → _normalize_voltage v u = v / 1000) ∧
    (pyLower u = "v" → _normalize_voltage v u = v) ∧
    (pyLower u = "s" → _normalize_duration v u = v * 1000) ∧
    (pyLower u = "µs" → _normalize_duration v u = v / 1000) ∧
    (pyLower u = "ms" → _normalize_duration v u = v) := by
  unfold _normalize_power _normalize_frequency _normalize_voltage _normalize_duration
  refine ⟨?_, ?_, ?_, ?_, ?_, ?_, ?_, ?_, ?_, ?_, ?_⟩ <;>
    (intro h; rw [h]; simp)

/-- C1 witness: the exact conversions of the specification examples,
with the unit tokens cased as the report files spell them. -/
theorem C1_unit_normalization_exact_witness :
    _normalize_power 1 "W" = 1 * 1000 ∧
    _normalize_power 1 "µW" = 1 / 1000 ∧
    _normalize_power 1 "mW" = 1 ∧
    _normalize_frequency 1 "GHz" = 1 * 1000 ∧
    _normalize_frequency 1 "kHz" = 1 / 1000 ∧
    _normalize_frequency 1 "MHz" = 1 ∧
    _normalize_voltage 1 "mV" = 1 / 1000 ∧
    _normalize_voltage 1 "V" = 1 ∧
    _normalize_duration 1 "s" = 1 * 1000 ∧
    _normalize_duration 1 "µs" = 1 / 1000 ∧
    _normalize_duration 1 "ms" = 1 :=
  ⟨(C1_unit_normalization_exact 1 "W").1 (by decide),
   (C1_unit_normalization_exact 1 "µW").2.1 (by decide),
   (C1_unit_normalization_exact 1 "mW").2.2.1 (by decide),
   (C1_unit_normalization_exact 1 "GHz").2.2.2.1 (by decide),
   (C1_unit_normalization_exact 1 "kHz").2.2.2.2.1 (by decide),
   (C1_unit_normalization_exact 1 "MHz").2.2.2.2.2.1 (by decide),
   (C1_unit_normalization_exact 1 "mV").2.2.2.2.2.2.1 (by decide),
   (C1_unit_normalization_exact 1 "V").2.2.2.2.2.2.2.1 (by decide),
   (C1_unit_normalization_exact 1 "s").2.2.2.2.2.2.2.2.1 (by decide),
   (C1_unit_normalization_exact 1 "µs").2.2.2.2.2.2.2.2.2.1 (by decide),
   (C1_unit_normalization_exact 1 "ms").2.2.2.2.2.2.2.2.2.2 (by decide)⟩

/-! ## Claim C8: boundary contract of the entry point -/

/-- C8: an empty design list or an all-whitespace die label is rejected
with a bad request regardless of what the pipeline would do (so before
any pipeline runs); a pipeline returning zero documents is rejected
with the distinct generation failure; otherwise the generated
identifiers are returned. -/
theorem C8_entry_point_boundary (selected : List String) (dieRaw : String)
    (run : List String → String → List String) :
    ((selected = [] ∨ pyStrip dieRaw = "") →
      index_post selected dieRaw run = .badRequest) ∧
    (selected ≠ [] → pyStrip dieRaw ≠ "" →
      run selected (pyStrip dieRaw) = [] →
      index_post selected dieRaw run = .generationFailure) ∧
    (selected ≠ [] → pyStrip dieRaw ≠ "" →
      run selected (pyStrip dieRaw) ≠ [] →
      index_post selected dieRaw run = .ok (run selected (pyStrip dieRaw))) ∧
    (AppResponse.badRequest ≠ AppResponse.generationFailure) := by
  refine ⟨?_, ?_, ?_, by simp⟩
  · rintro (h | h) <;>
      simp [index_post, h, List.isEmpty_iff, String.isEmpty_iff]
  · intro h1 h2 h3
    simp [index_post, List.isEmpty_iff, String.isEmpty_iff, h1, h2, h3]
  · intro h1 h2 h3
    simp [index_post, List.isEmpty_iff, String.isEmpty_iff, h1, h2, h3]

/-- C8 witness: concrete requests exercising all three outcomes (the
all-whitespace die label strips to the empty string). -/
theorem C8_entry_point_boundary_witness :
    index_post [] "die1" (fun _ _ => ["doc.html"]) = .badRequest ∧
    index_post ["chipA"] "   " (fun _ _ => ["doc.html"]) = .badRequest ∧
    index_post ["chipA"] " die1 " (fun _ _ => []) = .generationFailure ∧
    index_post ["chipA"] "die1" (fun _ _ => ["doc.html"]) = .ok ["doc.html"] :=
  ⟨(C8_entry_point_boundary [] "die1" _).1 (Or.inl rfl),
   (C8_entry_point_boundary ["chipA"] "   " _).1 (Or.inr (by decide)),
   (C8_entry_point_boundary ["chipA"] " die1 " _).2.1 (by decide) (by decide) rfl,
   (C8_entry_point_boundary ["chipA"] "die1" _).2.2.1 (by decide) (by decide) (by decide)⟩

/-! ## Claim C7: the timing parser always returns a defaulted pair -/

theorem timingStep_preserves_setup (sc : TimingScan) (l : String)
    (hl : l ≠ "Setup violations") (hst : sc.st ≠ .setup) :
    (timingStep sc l).setup = sc.setup ∧ (timingStep sc l).st ≠ .setup := by
  obtain ⟨st, aftT, su, ho⟩ := sc
  cases st <;> simp only [timingStep, if_neg hl] <;>
    (repeat' split) <;> simp_all

theorem timingFold_setup_stable (ls : List String) :
    ∀ sc : TimingScan, "Setup violations" ∉ ls → sc.st ≠ .setup →
      (ls.foldl timingStep sc).setup = sc.setup := by
  induction ls with
  | nil => intro sc _ _; rfl
  | cons l ls ih =>
    intro sc hmem hst
    have hl : l ≠ "Setup violations" := fun h => hmem (h ▸ List.mem_cons_self _ _)
    have hrest : "Setup violations" ∉ ls := fun h => hmem (List.mem_cons_of_mem _ h)
    have hstep := timingStep_preserves_setup sc l hl hst
    simp only [List.foldl_cons]
    rw [ih (timingStep sc l) hrest hstep.2, hstep.1]

/-- C7: the timing parser always returns a `(setup, hold)` pair of
summaries with every missing field defaulting to `"0"`: an unreadable
file yields both defaults, and a report with no `"Setup violations"`
line yields the setup summary `("0","0","0")` — never raising (the
embedding is a total function). -/
theorem C7_timing_parser_defaults (input : Option (List String)) :
    (input = none → backend_timing input = (⟨"0", "0", "0"⟩, ⟨"0", "0", "0"⟩)) ∧
    (∀ ls, input = some ls → "Setup violations" ∉ ls →
      (backend_timing input).1 = ⟨"0", "0", "0"⟩) := by
  constructor
  · rintro rfl; rfl
  · rintro ls rfl hmem
    show finalizeVS ((ls.foldl timingStep
      ⟨.idle, false, ⟨none, none, none⟩, ⟨none, none, none⟩⟩).setup) = ⟨"0", "0", "0"⟩
    rw [timingFold_setup_stable ls _ hmem (by decide)]
    rfl

/-- C7 witness: an unreadable file and a report whose only section is a
hold section both default the setup summary to `("0","0","0")`. -/
theorem C7_timing_parser_defaults_witness :
    backend_timing none = (⟨"0", "0", "0"⟩, ⟨"0", "0", "0"⟩) ∧
    (backend_timing (some ["Hold violations", "Total slack table", "WNS -0.05"])).1 =
      ⟨"0", "0", "0"⟩ :=
  ⟨(C7_timing_parser_defaults none).1 rfl,
   (C7_timing_parser_defaults (some ["Hold violations", "Total slack table", "WNS -0.05"])).2
     _ rfl (by decide)⟩

/-! ## Claim C2: missing/unreadable files are absent data, and one
parse failure never aborts the sibling files -/

theorem processStep_skip_of_parse_failure (now : String) (fs : String → Option String)
    (acc : List (String × String)) (bad : String) (h : parse_file now fs bad = none) :
    processStep now fs acc bad = pure acc := by
  simp only [processStep, generate_dashboard_from_file, h]
  rfl

/-- C2: `parse_file` returns `none` (never an error) for a path whose
name is not a `*.report.avgpwr` name and for an unreadable file
(totality of the embedding models absence of exceptions), and in
`process_power_reports` a parse failure on one file leaves the
processing of all sibling files — and hence the returned mapping —
exactly as if the failed file were not there. -/
theorem C2_parse_failure_isolated (now : String) (fs : String → Option String) :
    (∀ p, is_valid_report_file p = false → parse_file now fs p = none) ∧
    (∀ p, fs p = none → parse_file now fs p = none) ∧
    (∀ pre post bad, parse_file now fs bad = none →
      process_power_reports now fs (pre ++ bad :: post) =
        process_power_reports now fs (pre ++ post)) := by
  refine ⟨?_, ?_, ?_⟩
  · intro p hp; simp [parse_file, hp]
  · intro p hp; simp [parse_file, hp]
  · intro pre post bad hbad
    unfold process_power_reports
    rw [List.foldlM_append, List.foldlM_append]
    cases h : List.foldlM (processStep now fs) [] pre with
    | error e => rfl
    | ok acc =>
      show Except.bind _ _ = Except.bind _ _
      simp only [Except.bind]
      rw [List.foldlM_cons, processStep_skip_of_parse_failure now fs acc bad hbad]
      rfl

/-- C2 witness: a non-report name and an unreadable file both parse to
`none`, and dropping a failing sibling from a directory listing does
not change the processing result of the remaining files. -/
theorem C2_parse_failure_isolated_witness :
    parse_file "t0" (fun _ => none) "notes.txt" = none ∧
    parse_file "t0" (fun _ => none) "x.report.avgpwr" = none ∧
    process_power_reports "t0" (fun _ => none)
        (["a.report.avgpwr"] ++ "bad.txt" :: ["b.report.avgpwr"]) =
      process_power_reports "t0" (fun _ => none) (["a.report.avgpwr"] ++ ["b.report.avgpwr"]) :=
  ⟨(C2_parse_failure_isolated "t0" (fun _ => none)).1 "notes.txt" (by decide),
   (C2_parse_failure_isolated "t0" (fun _ => none)).2.1 "x.report.avgpwr" rfl,
   (C2_parse_failure_isolated "t0" (fun _ => none)).2.2 ["a.report.avgpwr"]
     ["b.report.avgpwr"] "bad.txt" (by decide)⟩

/-! ## Claim C3: total-power severity classification -/

/-- C3: `_get_power_class` yields the critical class exactly when
`p > 10000`, the warning class exactly when `5000 < p ≤ 10000` and the
normal class otherwise; in the rendered card list the severity class is
attached to the total-power card only, every other card receiving the
plain `metric-card` class. -/
theorem C3_total_power_severity (p cpu gpu mem fr vo te : ℚ) :
    (_get_power_class p = "metric-card power-critical" ↔ 10000 < p) ∧
    (_get_power_class p = "metric-card power-warning" ↔ 5000 < p ∧ p ≤ 10000) ∧
    (_get_power_class p = "metric-card power-normal" ↔ p ≤ 5000) ∧
    ((metricCardArgs p cpu gpu mem fr vo te).head? =
      some ("Total Power", p, "mW", _get_power_class p)) ∧
    (∀ a ∈ (metricCardArgs p cpu gpu mem fr vo te).tail, a.2.2.2 = "metric-card") := by
  refine ⟨?_, ?_, ?_, rfl, ?_⟩
  · unfold _get_power_class
    split_ifs with h1 h2
    · simpa using h1
    · simpa [show ("metric-card power-warning" : String) ≠ "metric-card power-critical"
        from by decide] using h1
    · simpa [show ("metric-card power-normal" : String) ≠ "metric-card power-critical"
        from by decide] using h1
  · unfold _get_power_class
    split_ifs with h1 h2
    · simp only [show ("metric-card power-critical" : String) ≠ "metric-card power-warning"
        from by decide, false_iff]
      rintro ⟨-, hle⟩
      exact absurd h1 (not_lt.mpr hle)
    · simpa using ⟨h2, not_lt.mp h1⟩
    · simp only [show ("metric-card power-normal" : String) ≠ "metric-card power-warning"
        from by decide, false_iff]
      rintro ⟨h5, -⟩
      exact h2 h5
  · unfold _get_power_class
    split_ifs with h1 h2
    · simp only [show ("metric-card power-critical" : String) ≠ "metric-card power-normal"
        from by decide, false_iff, not_le]
      linarith
    · simp only [show ("metric-card power-warning" : String) ≠ "metric-card power-normal"
        from by decide, false_iff, not_le]
      exact h2
    · simpa using not_lt.mp h2
  · intro a ha
    fin_cases ha <;> rfl

/-- C3 witness: `10001 → critical`, `7000 → warning`, `5000 → normal`,
and the CPU card of a critical dashboard still carries the plain class. -/
theorem C3_total_power_severity_witness :
    _get_power_class 10001 = "metric-card power-critical" ∧
    _get_power_class 7000 = "metric-card power-warning" ∧
    _get_power_class 5000 = "metric-card power-normal" ∧
    (("CPU Power", (2 : ℚ), "mW", "metric-card") ∈
      (metricCardArgs 10001 2 3 4 5 6 7).tail) ∧
    ((("CPU Power", (2 : ℚ), "mW", "metric-card")).2.2.2 = "metric-card") :=
  ⟨(C3_total_power_severity 10001 2 3 4 5 6 7).1.mpr (by decide),
   (C3_total_power_severity 7000 2 3 4 5 6 7).2.1.mpr ⟨by decide, by decide⟩,
   (C3_total_power_severity 5000 2 3 4 5 6 7).2.2.1.mpr (by decide),
   by decide,
   (C3_total_power_severity 10001 2 3 4 5 6 7).2.2.2.2 _ (by decide)⟩

/-! ## Claim C5: output document naming -/

theorem except_bind_ok {ε α β : Type} (a : α) (f : α → Except ε β) :
    ((Except.ok a : Except ε α) >>= f) = f a := rfl

theorem except_bind_error {ε α β : Type} (e : ε) (f : α → Except ε β) :
    ((Except.error e : Except ε α) >>= f) = Except.error e := rfl

theorem string_toList_inj : ∀ {s t : String}, s.toList = t.toList → s = t := by
  intro s t h
  cases s
  cases t
  simp only [String.toList] at h
  rw [h]

theorem pyStem_of_avgpwr (pre : List Char) (hpre : pre ≠ []) :
    pyStem (String.mk (pre ++ ".avgpwr".toList)) = String.mk pre := by
  have hlen : 0 < pre.length := List.length_pos.mpr hpre
  have hfind : (String.mk (pre ++ ".avgpwr".toList)).toList.reverse.findIdx? (· = '.') =
      some 6 := by
    show (pre ++ ".avgpwr".toList).reverse.findIdx? (· = '.') = some 6
    rw [List.reverse_append]
    rw [show (".avgpwr".toList).reverse = ['r', 'w', 'p', 'g', 'v', 'a', '.'] from rfl]
    rw [List.findIdx?_append]
    rfl
  unfold pyStem
  rw [hfind]
  dsimp only
  have hl : (String.mk (pre ++ ".avgpwr".toList)).toList.length = pre.length + 7 := by
    show (pre ++ ".avgpwr".toList).length = _
    simp [List.length_append]
  rw [if_pos]
  · show String.mk ((pre ++ ".avgpwr".toList).take _) = String.mk pre
    congr 1
    rw [show (String.mk (pre ++ ".avgpwr".toList)).toList.length - 1 - 6 = pre.length by
      rw [hl]; omega]
    exact List.take_left pre _
  · rw [hl]
    constructor <;> omega

/-- A valid report name decomposes as `pre ++ ".avgpwr"` with `pre`
nonempty, and its stem is exactly `pre`. -/
theorem stem_decomposition (name : String) (h : is_valid_report_file name = true) :
    ∃ pre : List Char, pre ≠ [] ∧ name.toList = pre ++ ".avgpwr".toList ∧
      pyStem name = String.mk pre := by
  have hsuf : ".report.avgpwr".toList <:+ name.toList := by
    simpa [is_valid_report_file] using h
  obtain ⟨t, ht⟩ := hsuf
  refine ⟨t ++ ".report".toList, by simp, ?_, ?_⟩
  · rw [List.append_assoc]
    rw [show ".report".toList ++ ".avgpwr".toList = ".report.avgpwr".toList from rfl]
    exact ht.symm
  · have hname : name = String.mk ((t ++ ".report".toList) ++ ".avgpwr".toList) := by
      apply string_toList_inj
      show name.toList = _
      rw [List.append_assoc]
      exact ht.symm
    rw [hname, pyStem_of_avgpwr _ (by simp)]

theorem mem_dictSet {α : Type} (d : List (String × α)) (k : String) (v : α) :
    ∀ p ∈ dictSet d k v, p ∈ d ∨ p = (k, v) := by
  intro p hp
  unfold dictSet at hp
  split at hp
  · obtain ⟨q, hq, hfq⟩ := List.mem_map.mp hp
    by_cases hqk : q.1 == k
    · right; rw [if_pos hqk] at hfq; exact hfq.symm
    · left; rw [if_neg hqk] at hfq; exact hfq ▸ hq
  · rcases List.mem_append.mp hp with h | h
    · left; exact h
    · right; simpa using h

theorem processStep_ok_cases (now : String) (fs : String → Option String)
    (acc : List (String × String)) (n : String) (res : List (String × String))
    (h : processStep now fs acc n = .ok res) :
    res = acc ∨ res = dictSet acc n (output_filename n) := by
  unfold processStep at h
  cases hg : generate_dashboard_from_file now fs n with
  | error e =>
    rw [hg, except_bind_error] at h
    exact absurd h (by simp)
  | ok html =>
    rw [hg, except_bind_ok] at h
    cases html with
    | none =>
      left
      exact (Except.ok.inj h).symm
    | some s =>
      dsimp only at h
      by_cases hs : s = ""
      · left
        rw [if_pos hs] at h
        exact (Except.ok.inj h).symm
      · right
        rw [if_neg hs] at h
        exact (Except.ok.inj h).symm

theorem process_pairs_named (now : String) (fs : String → Option String) :
    ∀ (files : List String) (acc res : List (String × String)),
      (∀ p ∈ acc, p.2 = output_filename p.1) →
      List.foldlM (processStep now fs) acc files = .ok res →
      ∀ p ∈ res, p.2 = output_filename p.1 := by
  intro files
  induction files with
  | nil =>
    intro acc res hacc h
    have h2 : (Except.ok acc : Except String _) = Except.ok res := h
    exact (Except.ok.inj h2) ▸ hacc
  | cons n files ih =>
    intro acc res hacc h
    rw [List.foldlM_cons] at h
    cases hstep : processStep now fs acc n with
    | error e =>
      rw [hstep, except_bind_error] at h
      exact absurd h (by simp)
    | ok acc' =>
      rw [hstep, except_bind_ok] at h
      have hacc' : ∀ p ∈ acc', p.2 = output_filename p.1 := by
        rcases processStep_ok_cases now fs acc n acc' hstep with rfl | rfl
        · exact hacc
        · intro p hp
          rcases mem_dictSet acc n (output_filename n) p hp with hmem | rfl
          · exact hacc p hmem
          · rfl
      exact ih acc' res hacc' h

/-- C5 counterexample: the source keeps every character of the file
stem, so the generated document name `a b.report.html` for the input
file `a b.report.avgpwr` contains a space (and dots) — non-alphanumeric
characters of the identifier that are not replaced, contradicting the
claim. -/
theorem C5_naming_counterexample :
    output_filename "a b.report.avgpwr" = "a b.report.html" ∧
    ' ' ∈ (output_filename "a b.report.avgpwr").toList ∧
    (' ').isAlphanum = false :=
  ⟨by decide, by decide, by decide⟩

/-- C5 (amended): the generated HTML document name is the
deterministic function (the stem with `.html` appended) of the input file name alone
(so a re-run produces the same identifier and overwrites), but
non-alphanumeric characters of the stem are kept verbatim, not
replaced: every entry of the mapping returned by
`process_power_reports` has exactly the value `output_filename name`. -/
theorem C5_naming_deterministic_unsanitized (now : String) (fs : String → Option String)
    (files : List String) (res : List (String × String)) (name out : String)
    (hrun : process_power_reports now fs files = .ok res)
    (hmem : (name, out) ∈ res) :
    out = output_filename name :=
  process_pairs_named now fs files [] res (by simp) hrun (name, out) hmem

/-- C5 witness: a concrete run over one readable report file produces
the mapping entry whose value the amended theorem describes. -/
theorem C5_naming_deterministic_unsanitized_witness :
    process_power_reports "t0"
        (fun p => if p = "r.report.avgpwr" then some "x" else none)
        ["r.report.avgpwr"] = .ok [("r.report.avgpwr", "r.report.html")] ∧
    "r.report.html" = output_filename "r.report.avgpwr" := by
  have hrun : process_power_reports "t0"
      (fun p => if p = "r.report.avgpwr" then some "x" else none)
      ["r.report.avgpwr"] = .ok [("r.report.avgpwr", "r.report.html")] := by
    with_unfolding_all rfl
  exact ⟨hrun, C5_naming_deterministic_unsanitized "t0" _ _ _ _ _ hrun (by decide)⟩

/-! ## Claim C6: unique identifiers, first-seen order -/

theorem string_toList_append (a b : String) : (a ++ b).toList = a.toList ++ b.toList := rfl

theorem genId_ok (now : String) (fs : String → Option String) (name v : String)
    (h : genId now fs name = some v) :
    is_valid_report_file name = true ∧ v = output_filename name := by
  unfold genId at h
  cases hg : generate_dashboard_from_file now fs name with
  | error e => rw [hg] at h; exact absurd h (by simp)
  | ok html =>
    rw [hg] at h
    cases html with
    | none => exact absurd h (by simp)
    | some s =>
      dsimp only at h
      by_cases hs : s = ""
      · rw [if_pos hs] at h; exact absurd h (by simp)
      · rw [if_neg hs] at h
        refine ⟨?_, (Option.some.inj h).symm⟩
        by_contra hv
        have hv' : is_valid_report_file name = false := by
          cases hvv : is_valid_report_file name
          · rfl
          · exact absurd hvv hv
        have : parse_file now fs name = none := by simp [parse_file, hv']
        rw [generate_dashboard_from_file, this] at hg
        exact absurd (Except.ok.inj hg) (by simp)

theorem genId_injective (now : String) (fs : String → Option String) (n1 n2 v : String)
    (h1 : genId now fs n1 = some v) (h2 : genId now fs n2 = some v) : n1 = n2 := by
  obtain ⟨hv1, heq1⟩ := genId_ok now fs n1 v h1
  obtain ⟨hv2, heq2⟩ := genId_ok now fs n2 v h2
  obtain ⟨p1, hp1ne, hp1, hs1⟩ := stem_decomposition n1 hv1
  obtain ⟨p2, hp2ne, hp2, hs2⟩ := stem_decomposition n2 hv2
  have heq : output_filename n1 = output_filename n2 := heq1 ▸ heq2
  have hlist : p1 ++ ".html".toList = p2 ++ ".html".toList := by
    have hL := congrArg String.toList heq
    unfold output_filename at hL
    rw [string_toList_append, string_toList_append, hs1, hs2] at hL
    exact hL
  have hpre : p1 = p2 := (List.append_left_inj _).mp hlist
  apply string_toList_inj
  rw [hp1, hp2, hpre]

theorem processStep_ok_genId (now : String) (fs : String → Option String)
    (acc : List (String × String)) (n : String) (res : List (String × String))
    (h : processStep now fs acc n = .ok res) :
    res = (match genId now fs n with
           | none => acc
           | some v => dictSet acc n v) := by
  unfold processStep at h
  unfold genId
  cases hg : generate_dashboard_from_file now fs n with
  | error e =>
    rw [hg, except_bind_error] at h
    exact absurd h (by simp)
  | ok html =>
    rw [hg, except_bind_ok] at h
    cases html with
    | none => exact (Except.ok.inj h).symm
    | some s =>
      dsimp only at h ⊢
      by_cases hs : s = ""
      · rw [if_pos hs] at h
        rw [if_pos hs]
        exact (Except.ok.inj h).symm
      · rw [if_neg hs] at h
        rw [if_neg hs]
        exact (Except.ok.inj h).symm

theorem firstSeenDedupAux_cons (seen : List String) (x : String) (l : List String) :
    firstSeenDedupAux seen (x :: l) =
      if x ∈ seen then firstSeenDedupAux seen l
      else x :: firstSeenDedupAux (x :: seen) l := rfl

theorem firstSeenDedupAux_congr : ∀ (l : List String) (s1 s2 : List String),
    (∀ x, x ∈ s1 ↔ x ∈ s2) → firstSeenDedupAux s1 l = firstSeenDedupAux s2 l := by
  intro l
  induction l with
  | nil => intro s1 s2 _; rfl
  | cons y l ih =>
    intro s1 s2 hiff
    unfold firstSeenDedupAux
    by_cases hy : y ∈ s1
    · rw [if_pos hy, if_pos ((hiff y).mp hy)]
      exact ih s1 s2 hiff
    · rw [if_neg hy, if_neg (fun hc => hy ((hiff y).mpr hc))]
      congr 1
      apply ih
      intro x
      simp only [List.mem_cons]
      exact or_congr Iff.rfl (hiff x)

theorem firstSeenDedupAux_not_mem_seen : ∀ (l seen : List String) (x : String),
    x ∈ firstSeenDedupAux seen l → x ∉ seen := by
  intro l
  induction l with
  | nil => intro seen x h; exact absurd h (by simp [firstSeenDedupAux])
  | cons y l ih =>
    intro seen x h
    unfold firstSeenDedupAux at h
    by_cases hy : y ∈ seen
    · rw [if_pos hy] at h; exact ih seen x h
    · rw [if_neg hy] at h
      rcases List.mem_cons.mp h with rfl | h2
      · exact hy
      · intro hx
        exact ih (y :: seen) x h2 (List.mem_cons_of_mem _ hx)

theorem firstSeenDedupAux_nodup : ∀ (l seen : List String),
    (firstSeenDedupAux seen l).Nodup := by
  intro l
  induction l with
  | nil => intro seen; simp [firstSeenDedupAux]
  | cons y l ih =>
    intro seen
    unfold firstSeenDedupAux
    by_cases hy : y ∈ seen
    · rw [if_pos hy]; exact ih seen
    · rw [if_neg hy]
      refine List.nodup_cons.mpr ⟨?_, ih (y :: seen)⟩
      intro hc
      exact firstSeenDedupAux_not_mem_seen l (y :: seen) y hc (List.mem_cons_self _ _)

theorem process_values_aux (now : String) (fs : String → Option String) :
    ∀ (files : List String) (acc res : List (String × String)),
      (∀ p ∈ acc, genId now fs p.1 = some p.2) →
      List.foldlM (processStep now fs) acc files = .ok res →
      res.map Prod.snd =
        acc.map Prod.snd ++
          firstSeenDedupAux (acc.map Prod.snd) (files.filterMap (genId now fs)) := by
  intro files
  induction files with
  | nil =>
    intro acc res hacc h
    have h2 : (Except.ok acc : Except String _) = Except.ok res := h
    rw [← Except.ok.inj h2]
    simp [firstSeenDedupAux]
  | cons n files ih =>
    intro acc res hacc h
    rw [List.foldlM_cons] at h
    cases hstep : processStep now fs acc n with
    | error e =>
      rw [hstep, except_bind_error] at h
      exact absurd h (by simp)
    | ok acc' =>
      rw [hstep, except_bind_ok] at h
      have hcases := processStep_ok_genId now fs acc n acc' hstep
      cases hg : genId now fs n with
      | none =>
        rw [hg] at hcases
        dsimp only at hcases
        rw [hcases] at h
        rw [List.filterMap_cons_none hg]
        exact ih acc res hacc h
      | some v =>
        rw [hg] at hcases
        dsimp only at hcases
        rw [List.filterMap_cons_some hg]
        by_cases hmem : dictContains acc n
        · obtain ⟨p, hp, hpk⟩ := List.any_eq_true.mp hmem
          have hkey : p.1 = n := by simpa using hpk
          have hval : p.2 = v := by
            have hgen := hacc p hp
            rw [hkey, hg] at hgen
            exact (Option.some.inj hgen).symm
          have hset : dictSet acc n v = acc := by
            unfold dictSet
            rw [if_pos hmem]
            have hid : acc.map (fun q => if q.1 == n then (n, v) else q) = acc.map id := by
              apply List.map_congr_left
              intro q hq
              by_cases hk : q.1 == n
              · rw [if_pos hk]
                have hqk : q.1 = n := by simpa using hk
                have hqv : q.2 = v := by
                  have hgenq := hacc q hq
                  rw [hqk, hg] at hgenq
                  exact (Option.some.inj hgenq).symm
                simp only [id_eq]
                rw [← hqk, ← hqv]
              · rw [if_neg hk]
                simp only [id_eq]
            rw [hid, List.map_id]
          rw [hset] at hcases
          rw [hcases] at h
          have hvmem : v ∈ acc.map Prod.snd := List.mem_map.mpr ⟨p, hp, hval⟩
          rw [firstSeenDedupAux_cons, if_pos hvmem]
          exact ih acc res hacc h
        · have hdse : dictSet acc n v = acc ++ [(n, v)] := by
            unfold dictSet
            rw [if_neg hmem]
          rw [hdse] at hcases
          rw [hcases] at h
          have hinv : ∀ q ∈ acc ++ [(n, v)], genId now fs q.1 = some q.2 := by
            intro q hq
            rcases List.mem_append.mp hq with hq1 | hq2
            · exact hacc q hq1
            · have : q = (n, v) := by simpa using hq2
              rw [this]
              exact hg
          have hvnot : v ∉ acc.map Prod.snd := by
            intro hc
            obtain ⟨q, hq, hqv⟩ := List.mem_map.mp hc
            have hgenq := hacc q hq
            rw [hqv] at hgenq
            have : q.1 = n := genId_injective now fs q.1 n v hgenq hg
            exact hmem (List.any_eq_true.mpr ⟨q, hq, by simp [this]⟩)
          have hih := ih (acc ++ [(n, v)]) res hinv h
          rw [firstSeenDedupAux_cons, if_neg hvnot]
          rw [hih, List.map_append]
          rw [firstSeenDedupAux_congr (files.filterMap (genId now fs))
            (acc.map Prod.snd ++ List.map Prod.snd [(n, v)]) (v :: acc.map Prod.snd)
            (by intro x; simp [List.mem_append, or_comm])]
          simp [List.append_assoc]

/-- C6: the mapping returned by `process_power_reports` carries each
generated output identifier at most once (its value list is
duplicate-free), and that value list is exactly the first-seen-order
deduplication of the sequence of identifiers generated by the input
files in processing order — so generated identifiers `[A, B, A, C]`
reach the caller as `[A, B, C]`. -/
theorem C6_identifiers_unique_first_seen (now : String) (fs : String → Option String)
    (files : List String) (res : List (String × String))
    (hrun : process_power_reports now fs files = .ok res) :
    res.map Prod.snd = firstSeenDedup (files.filterMap (genId now fs)) ∧
    (res.map Prod.snd).Nodup := by
  have h := process_values_aux now fs files [] res (by simp) hrun
  have h2 : res.map Prod.snd = firstSeenDedup (files.filterMap (genId now fs)) := by
    simpa [firstSeenDedup] using h
  exact ⟨h2, h2 ▸ firstSeenDedupAux_nodup _ _⟩

/-- C6 witness: processing the listing `[a, b, a, c]` (each file
readable), whose generated identifier sequence is `[A, B, A, C]`,
returns the mapping with value list `[A, B, C]`. -/
theorem C6_identifiers_unique_first_seen_witness :
    process_power_reports "t0" (fun _ => some "x")
        ["a.report.avgpwr", "b.report.avgpwr", "a.report.avgpwr", "c.report.avgpwr"] =
      .ok [("a.report.avgpwr", "a.report.html"), ("b.report.avgpwr", "b.report.html"),
           ("c.report.avgpwr", "c.report.html")] ∧
    ["a.report.avgpwr", "b.report.avgpwr", "a.report.avgpwr",
        "c.report.avgpwr"].filterMap (genId "t0" (fun _ => some "x")) =
      ["a.report.html", "b.report.html", "a.report.html", "c.report.html"] ∧
    ["a.report.html", "b.report.html", "c.report.html"] =
      firstSeenDedup ["a.report.html", "b.report.html", "a.report.html", "c.report.html"] := by
  have hrun : process_power_reports "t0" (fun _ => some "x")
      ["a.report.avgpwr", "b.report.avgpwr", "a.report.avgpwr", "c.report.avgpwr"] =
      .ok [("a.report.avgpwr", "a.report.html"), ("b.report.avgpwr", "b.report.html"),
           ("c.report.avgpwr", "c.report.html")] := by
    with_unfolding_all rfl
  have hseq : ["a.report.avgpwr", "b.report.avgpwr", "a.report.avgpwr",
      "c.report.avgpwr"].filterMap (genId "t0" (fun _ => some "x")) =
      ["a.report.html", "b.report.html", "a.report.html", "c.report.html"] := by
    with_unfolding_all rfl
  refine ⟨hrun, hseq, ?_⟩
  have h := (C6_identifiers_unique_first_seen "t0" (fun _ => some "x") _ _ hrun).1
  rw [hseq] at h
  simpa using h

/-! ## Claim C4: passthrough capture -/

theorem dictGet?_of_not_contains {α : Type} (d : List (String × α)) (k : String)
    (h : dictContains d k = false) : dictGet? d k = none := by
  unfold dictGet?
  rw [List.find?_eq_none.mpr]
  · rfl
  · intro p hp hpk
    have : dictContains d k = true := List.any_eq_true.mpr ⟨p, hp, hpk⟩
    rw [this] at h
    cases h

theorem find?_map_set {α : Type} (k : String) (v : α) :
    ∀ d : List (String × α), dictContains d k = true →
      ((d.map (fun p => if p.1 == k then (k, v) else p)).find? (fun p => p.1 == k)) =
        some (k, v) := by
  intro d
  induction d with
  | nil => intro h; cases h
  | cons p d ih =>
    intro h
    by_cases hk : p.1 == k
    · rw [List.map_cons, if_pos hk, List.find?_cons_of_pos _ (by simp)]
    · rw [List.map_cons, if_neg hk, List.find?_cons_of_neg _ (by simpa using hk)]
      apply ih
      obtain ⟨q, hq, hqk⟩ := List.any_eq_true.mp h
      rcases List.mem_cons.mp hq with rfl | hq2
      · exact absurd hqk hk
      · exact List.any_eq_true.mpr ⟨q, hq2, hqk⟩

theorem dictContains_cons {α : Type} (p : String × α) (d : List (String × α)) (k : String) :
    dictContains (p :: d) k = ((p.1 == k) || dictContains d k) := by
  unfold dictContains
  rw [List.any_cons]

theorem find?_append_set {α : Type} (k : String) (v : α) :
    ∀ d : List (String × α), dictContains d k = false →
      ((d ++ [(k, v)]).find? (fun p => p.1 == k)) = some (k, v) := by
  intro d
  induction d with
  | nil =>
    intro _
    rw [List.nil_append, List.find?_cons_of_pos _ (by simp)]
  | cons p d ih =>
    intro h
    rw [dictContains_cons] at h
    have hpk : (p.1 == k) = false := by
      cases hself : (p.1 == k)
      · rfl
      · rw [hself] at h; simp at h
    rw [hpk] at h
    rw [List.cons_append, List.find?_cons_of_neg _ (by simp [hpk])]
    exact ih (by simpa using h)

theorem dictGet?_set_same {α : Type} (d : List (String × α)) (k : String) (v : α) :
    dictGet? (dictSet d k v) k = some v := by
  unfold dictSet dictGet?
  by_cases hc : dictContains d k
  · rw [if_pos hc, find?_map_set k v d hc]
    rfl
  · rw [if_neg hc, find?_append_set k v d (by simpa using hc)]
    rfl

theorem beq_comm_false {k k' : String} (hne : (k' == k) = false) : (k == k') = false := by
  cases hkk : k == k'
  · rfl
  · have : k = k' := by simpa using hkk
    rw [this] at hne
    simp at hne

theorem find?_key_map_set {α : Type} (k k' : String) (v : α) (hne : (k' == k) = false) :
    ∀ d : List (String × α),
      (d.map (fun p => if p.1 == k then (k, v) else p)).find? (fun p => p.1 == k') =
        d.find? (fun p => p.1 == k') := by
  intro d
  induction d with
  | nil => rfl
  | cons p d ih =>
    rw [List.map_cons]
    by_cases hk : p.1 == k
    · have h2 : (p.1 == k') = false := by
        have hp2 : p.1 = k := by simpa using hk
        rw [hp2]
        exact beq_comm_false hne
      rw [if_pos hk, List.find?_cons_of_neg _ (by simp [beq_comm_false hne]),
        List.find?_cons_of_neg _ (by simp [h2])]
      exact ih
    · by_cases hpk : p.1 == k'
      · rw [if_neg hk, List.find?_cons_of_pos _ (by simpa using hpk),
          List.find?_cons_of_pos _ (by simpa using hpk)]
      · rw [if_neg hk, List.find?_cons_of_neg _ (by simpa using hpk),
          List.find?_cons_of_neg _ (by simpa using hpk)]
        exact ih

theorem dictGet?_set_ne {α : Type} (d : List (String × α)) (k k' : String) (v : α)
    (hne : (k' == k) = false) : dictGet? (dictSet d k v) k' = dictGet? d k' := by
  unfold dictSet dictGet?
  by_cases hc : dictContains d k
  · rw [if_pos hc, find?_key_map_set k k' v hne d]
  · rw [if_neg hc]
    clear hc
    congr 1
    induction d with
    | nil =>
      rw [List.nil_append, List.find?_cons_of_neg _ (by simp [beq_comm_false hne]),
        List.find?_nil]
    | cons p d ih =>
      rw [List.cons_append]
      by_cases hpk : p.1 == k'
      · rw [List.find?_cons_of_pos _ (by simpa using hpk),
          List.find?_cons_of_pos _ (by simpa using hpk)]
      · rw [List.find?_cons_of_neg _ (by simpa using hpk),
          List.find?_cons_of_neg _ (by simpa using hpk)]
        exact ih

theorem any_key_map_set {α : Type} (k k' : String) (v : α) (hne : (k' == k) = false) :
    ∀ d : List (String × α),
      (d.map (fun p => if p.1 == k then (k, v) else p)).any (fun p => p.1 == k') =
        d.any (fun p => p.1 == k') := by
  intro d
  induction d with
  | nil => rfl
  | cons p d ih =>
    rw [List.map_cons, List.any_cons, List.any_cons]
    by_cases hk : p.1 == k
    · have h2 : (p.1 == k') = false := by
        have hp2 : p.1 = k := by simpa using hk
        rw [hp2]
        exact beq_comm_false hne
      rw [if_pos hk, show (((k, v) : String × α).1 == k') = false from beq_comm_false hne,
        h2, ih]
    · rw [if_neg hk, ih]

theorem dictContains_set_same {α : Type} (d : List (String × α)) (k : String) (v : α) :
    dictContains (dictSet d k v) k = true := by
  unfold dictSet
  by_cases hc : dictContains d k
  · rw [if_pos hc]
    obtain ⟨p, hp, hpk⟩ := List.any_eq_true.mp hc
    refine List.any_eq_true.mpr ⟨(k, v), List.mem_map.mpr ⟨p, hp, by rw [if_pos hpk]⟩, by simp⟩
  · rw [if_neg hc]
    exact List.any_eq_true.mpr ⟨(k, v), by simp, by simp⟩

theorem dictContains_set_ne {α : Type} (d : List (String × α)) (k k' : String) (v : α)
    (hne : (k' == k) = false) : dictContains (dictSet d k v) k' = dictContains d k' := by
  unfold dictSet
  by_cases hc : dictContains d k
  · rw [if_pos hc]
    exact any_key_map_set k k' v hne d
  · rw [if_neg hc]
    show (d ++ [(k, v)]).any _ = d.any _
    rw [List.any_append]
    rw [show (List.any [(k, v)] fun p => p.1 == k') = false by
      rw [List.any_cons, List.any_nil,
        show (((k, v) : String × α).1 == k') = false from beq_comm_false hne]
      rfl]
    simp [dictContains]

theorem passthrough_lookup : ∀ (lines : List String) (m0 : List (String × MVal)) (k : String),
    dictGet? (lines.foldl passthroughStep m0) k =
      if dictContains m0 k then dictGet? m0 k
      else (firstCapture lines k).map MVal.str := by
  intro lines
  induction lines with
  | nil =>
    intro m0 k
    rw [List.foldl_nil]
    by_cases hc : dictContains m0 k
    · rw [if_pos hc]
    · rw [if_neg hc, dictGet?_of_not_contains m0 k (by simpa using hc)]
      rfl
  | cons line lines ih =>
    intro m0 k
    rw [List.foldl_cons]
    cases hcap : lineCapture line with
    | none =>
      have hstep : passthroughStep m0 line = m0 := by
        unfold passthroughStep
        rw [hcap]
      have hfc : firstCapture (line :: lines) k = firstCapture lines k := by
        unfold firstCapture
        rw [List.filterMap_cons_none hcap]
      rw [hstep, ih, hfc]
    | some kv =>
      obtain ⟨key, value⟩ := kv
      have hfc : firstCapture (line :: lines) k =
          if (key == k) then some value else firstCapture lines k := by
        unfold firstCapture
        rw [List.filterMap_cons_some hcap]
        by_cases hkk : key == k
        · rw [if_pos hkk, List.find?_cons_of_pos _ (by simpa using hkk)]
          rfl
        · rw [if_neg hkk, List.find?_cons_of_neg _ (by simpa using hkk)]
      by_cases hm : dictContains m0 key
      · have hstep : passthroughStep m0 line = m0 := by
          unfold passthroughStep
          rw [hcap]
          dsimp only
          rw [if_pos hm]
        rw [hstep, ih, hfc]
        by_cases hc : dictContains m0 k
        · rw [if_pos hc, if_pos hc]
        · rw [if_neg hc, if_neg hc]
          have hkk : (key == k) = false := by
            cases hkey : key == k
            · rfl
            · have hke : key = k := by simpa using hkey
              rw [hke] at hm
              exact absurd hm (by simpa using hc)
          rw [if_neg (by simp [hkk])]
      · have hstep : passthroughStep m0 line = dictSet m0 key (.str value) := by
          unfold passthroughStep
          rw [hcap]
          dsimp only
          rw [if_neg hm]
        rw [hstep, ih, hfc]
        by_cases hkk : key == k
        · have hkeq : key = k := by simpa using hkk
          subst hkeq
          rw [if_pos (dictContains_set_same m0 key (.str value)),
            if_neg (by simpa using hm), if_pos hkk, dictGet?_set_same]
          rfl
        · have hkkf : (key == k) = false := by simpa using hkk
          have hkkf2 : (k == key) = false := beq_comm_false hkkf
          rw [dictContains_set_ne m0 key k (.str value) hkkf2,
            dictGet?_set_ne m0 key k (.str value) hkkf2]
          by_cases hc : dictContains m0 k
          · rw [if_pos hc, if_pos hc]
          · rw [if_neg hc, if_neg hc, if_neg (by simp [hkkf])]

/-- C4: in `_parse_content`, a key already produced by a canonical
field pattern keeps its canonical value (a passthrough capture never
overwrites it); any other key holds the capture of the *first*
non-comment line of the generic shape `label: value` whose
lowercased, space-to-underscore key equals it (first occurrence wins);
and a line whose stripped form starts with `#` is never captured. -/
theorem C4_passthrough_capture (now content filename k : String) :
    (dictContains (canonicalPhase content).1 k = true →
      dictGet? (_parse_content now content filename).metrics k =
        dictGet? (canonicalPhase content).1 k) ∧
    (dictContains (canonicalPhase content).1 k = false →
      dictGet? (_parse_content now content filename).metrics k =
        (firstCapture (splitLines content) k).map MVal.str) ∧
    (∀ line, pyStartsWith (pyStrip line) "#" = true → lineCapture line = none) := by
  have base := passthrough_lookup (splitLines content) (canonicalPhase content).1 k
  refine ⟨?_, ?_, ?_⟩
  · intro hc
    show dictGet? ((splitLines content).foldl passthroughStep (canonicalPhase content).1) k = _
    rw [base, if_pos hc]
  · intro hc
    show dictGet? ((splitLines content).foldl passthroughStep (canonicalPhase content).1) k = _
    rw [base, if_neg (by simp [hc])]
  · intro line h
    unfold lineCapture
    cases hm : metricLineMatch (pyStrip line).toList with
    | none => rfl
    | some gg =>
      obtain ⟨g1, g2⟩ := gg
      dsimp only
      rw [if_pos h]

/-- C4 witness: in a report with a canonical total-power line, two
`Foo Bar:` lines and a comment line, the canonical key keeps its
canonical value, `foo_bar` holds the first capture `"baz"`, and the
comment line is not captured. -/
theorem C4_passthrough_capture_witness :
    dictContains (canonicalPhase "Total Power: 5 mW\nFoo Bar: baz\nFoo Bar: qux\n# Note: zzz").1
      "total_power_mw" = true ∧
    dictGet? (_parse_content "t0" "Total Power: 5 mW\nFoo Bar: baz\nFoo Bar: qux\n# Note: zzz"
        "f.report.avgpwr").metrics "total_power_mw" =
      dictGet? (canonicalPhase "Total Power: 5 mW\nFoo Bar: baz\nFoo Bar: qux\n# Note: zzz").1
        "total_power_mw" ∧
    dictContains (canonicalPhase "Total Power: 5 mW\nFoo Bar: baz\nFoo Bar: qux\n# Note: zzz").1
      "foo_bar" = false ∧
    dictGet? (_parse_content "t0" "Total Power: 5 mW\nFoo Bar: baz\nFoo Bar: qux\n# Note: zzz"
        "f.report.avgpwr").metrics "foo_bar" =
      (firstCapture (splitLines "Total Power: 5 mW\nFoo Bar: baz\nFoo Bar: qux\n# Note: zzz")
        "foo_bar").map MVal.str ∧
    firstCapture (splitLines "Total Power: 5 mW\nFoo Bar: baz\nFoo Bar: qux\n# Note: zzz")
      "foo_bar" = some "baz" ∧
    lineCapture "# Note: zzz" = none := by
  have hc1 : dictContains
      (canonicalPhase "Total Power: 5 mW\nFoo Bar: baz\nFoo Bar: qux\n# Note: zzz").1
      "total_power_mw" = true := by
    with_unfolding_all rfl
  have hc2 : dictContains
      (canonicalPhase "Total Power: 5 mW\nFoo Bar: baz\nFoo Bar: qux\n# Note: zzz").1
      "foo_bar" = false := by
    with_unfolding_all rfl
  refine ⟨hc1,
    (C4_passthrough_capture "t0" _ "f.report.avgpwr" "total_power_mw").1 hc1,
    hc2,
    (C4_passthrough_capture "t0" _ "f.report.avgpwr" "foo_bar").2.1 hc2,
    by with_unfolding_all rfl,
    (C4_passthrough_capture "t0" "x" "f.report.avgpwr" "k").2.2 "# Note: zzz" (by decide)⟩

/-! ## Claim C9: totality and coherence of `_parse_content` -/

theorem toList_mk (l : List Char) : (String.mk l).toList = l := rfl

theorem takeWhile_append_stop (p : Char → Bool) (x : Char) (hx : p x = false) :
    ∀ (l1 l2 : List Char), (∀ c ∈ l1, p c) →
      (l1 ++ x :: l2).takeWhile p = l1 ∧ (l1 ++ x :: l2).dropWhile p = x :: l2 := by
  intro l1
  induction l1 with
  | nil =>
    intro l2 _
    simp [List.takeWhile_cons, List.dropWhile_cons, hx]
  | cons c l1 ih =>
    intro l2 h
    have hc : p c := h c (List.mem_cons_self _ _)
    have ih2 := ih l2 (fun d hd => h d (List.mem_cons_of_mem _ hd))
    simp only [List.cons_append, List.takeWhile_cons, List.dropWhile_cons, hc, if_true]
    exact ⟨by rw [ih2.1], by rw [ih2.2]⟩

theorem pyFloat_isSome_of_digits (d1 d2 : List Char) (h1 : d1 ≠ [])
    (hd1 : ∀ c ∈ d1, c.isDigit) (hd2 : ∀ c ∈ d2, c.isDigit) :
    (pyFloat (String.mk d1)).isSome = true ∧
    (pyFloat (String.mk (d1 ++ '.' :: d2))).isSome = true := by
  constructor
  · unfold pyFloat
    dsimp only [toList_mk]
    rw [List.takeWhile_eq_self_iff.mpr hd1, List.dropWhile_eq_nil_iff.mpr hd1]
    rw [if_neg (by simpa [List.isEmpty_iff] using h1)]
    rfl
  · unfold pyFloat
    dsimp only [toList_mk]
    have hstop := takeWhile_append_stop Char.isDigit '.' (by decide) d1 d2 hd1
    rw [hstop.1, hstop.2]
    show (if ((d2.dropWhile Char.isDigit).isEmpty &&
        !(d1.isEmpty && (d2.takeWhile Char.isDigit).isEmpty)) = true then
        some (((digitsToNat d1 : ℕ) : ℚ) +
          ((digitsToNat (d2.takeWhile Char.isDigit) : ℕ) : ℚ) /
            (10 : ℚ) ^ (d2.takeWhile Char.isDigit).length)
      else none).isSome = true
    rw [List.takeWhile_eq_self_iff.mpr hd2, List.dropWhile_eq_nil_iff.mpr hd2]
    rw [if_pos]
    · rfl
    · simp [List.isEmpty_iff, h1]

theorem matchNumUnit_capture_shape (units : List (List Char)) (cs cap u : List Char)
    (h : matchNumUnit units cs = some (cap, u)) :
    ∃ d1 d2 : List Char, d1 ≠ [] ∧ (∀ c ∈ d1, c.isDigit) ∧ (∀ c ∈ d2, c.isDigit) ∧
      (cap = d1 ∨ cap = d1 ++ '.' :: d2) := by
  simp only [matchNumUnit] at h
  split at h
  · cases h
  · rename_i hne
    have hd1 : ∀ c ∈ cs.takeWhile Char.isDigit, c.isDigit := fun c hc =>
      List.mem_takeWhile_imp hc
    have h1 : cs.takeWhile Char.isDigit ≠ [] := by
      intro hnil
      rw [hnil] at hne
      exact hne rfl
    split at h
    · rename_i r2 heq
      split at h
      · rename_i p hu
        obtain ⟨hcap, -⟩ := Prod.mk.injEq .. ▸ (Option.some.inj h)
        exact ⟨cs.takeWhile Char.isDigit, r2.takeWhile Char.isDigit, h1, hd1,
          fun c hc => List.mem_takeWhile_imp hc, Or.inr hcap.symm⟩
      · split at h
        · rename_i p2 hu2
          obtain ⟨hcap, -⟩ := Prod.mk.injEq .. ▸ (Option.some.inj h)
          exact ⟨cs.takeWhile Char.isDigit, [], h1, hd1, by simp, Or.inl hcap.symm⟩
        · cases h
    · split at h
      · rename_i p hu
        obtain ⟨hcap, -⟩ := Prod.mk.injEq .. ▸ (Option.some.inj h)
        exact ⟨cs.takeWhile Char.isDigit, [], h1, hd1, by simp, Or.inl hcap.symm⟩
      · cases h

theorem matchNumUnit_pyFloat_isSome (units : List (List Char)) (cs cap u : List Char)
    (h : matchNumUnit units cs = some (cap, u)) :
    (pyFloat (String.mk cap)).isSome = true := by
  obtain ⟨d1, d2, h1, hd1, hd2, hcap | hcap⟩ := matchNumUnit_capture_shape units cs cap u h
  · rw [hcap]
    exact (pyFloat_isSome_of_digits d1 d2 h1 hd1 hd2).1
  · rw [hcap]
    exact (pyFloat_isSome_of_digits d1 d2 h1 hd1 hd2).2

theorem fieldSpecs_keys (f : FieldSpec) (hf : f ∈ fieldSpecs) (g : FieldSpec)
    (hg : g ∈ fieldSpecs) :
    (f.rawKey = g.rawKey ↔ f.metricKey = g.metricKey) ∧
    (f.rawKey = g.rawKey → f.normalize = g.normalize) := by
  fin_cases hf <;> fin_cases hg <;>
    exact ⟨by decide, fun h => by first | rfl | exact absurd h (by decide)⟩

theorem applyField_coherent (content : String) :
    ∀ (specs : List FieldSpec), (∀ f0 ∈ specs, f0 ∈ fieldSpecs) →
    ∀ (acc : List (String × MVal) × List (String × RawMetric)),
      (∀ f ∈ fieldSpecs, ∀ v u, dictGet? acc.2 f.rawKey = some ⟨v, u⟩ →
        dictGet? acc.1 f.metricKey = some (.num (f.normalize v u))) →
      ∀ f ∈ fieldSpecs, ∀ v u,
        dictGet? (specs.foldl (applyField content) acc).2 f.rawKey = some ⟨v, u⟩ →
        dictGet? (specs.foldl (applyField content) acc).1 f.metricKey =
          some (.num (f.normalize v u)) := by
  intro specs
  induction specs with
  | nil =>
    intro _ acc hC f hf v u hget
    rw [List.foldl_nil] at hget ⊢
    exact hC f hf v u hget
  | cons f0 specs ih =>
    intro hsub acc hC
    rw [List.foldl_cons]
    apply ih (fun g hg => hsub g (List.mem_cons_of_mem _ hg))
    intro f hf v u hget
    unfold applyField at hget ⊢
    cases hs : searchLabeledS f0.words f0.units content with
    | none =>
      rw [hs] at hget
      dsimp only at hget ⊢
      exact hC f hf v u hget
    | some vu =>
      obtain ⟨vs, us⟩ := vu
      rw [hs] at hget
      dsimp only at hget ⊢
      by_cases hr : f.rawKey = f0.rawKey
      · have hdet := fieldSpecs_keys f hf f0 (hsub f0 (List.mem_cons_self _ _))
        have hm : f.metricKey = f0.metricKey := hdet.1.mp hr
        have hn : f.normalize = f0.normalize := hdet.2 hr
        rw [hr, dictGet?_set_same] at hget
        obtain ⟨hv, hu⟩ := RawMetric.mk.injEq .. ▸ (Option.some.inj hget)
        rw [hm, dictGet?_set_same, hn, hv, hu]
      · have hrne : (f.rawKey == f0.rawKey) = false := by
          cases hb : f.rawKey == f0.rawKey
          · rfl
          · exact absurd (by simpa using hb) hr
        have hmne : (f.metricKey == f0.metricKey) = false := by
          cases hb : f.metricKey == f0.metricKey
          · rfl
          · have hmeq : f.metricKey = f0.metricKey := by simpa using hb
            exact absurd ((fieldSpecs_keys f hf f0
              (hsub f0 (List.mem_cons_self _ _))).1.mpr hmeq) hr
        rw [dictGet?_set_ne acc.2 f0.rawKey f.rawKey _ hrne] at hget
        rw [dictGet?_set_ne acc.1 f0.metricKey f.metricKey _ hmne]
        exact hC f hf v u hget

theorem canonicalPhase_coherent (content : String) :
    ∀ f ∈ fieldSpecs, ∀ v u,
      dictGet? (canonicalPhase content).2 f.rawKey = some ⟨v, u⟩ →
      dictGet? (canonicalPhase content).1 f.metricKey = some (.num (f.normalize v u)) := by
  have hbase : ∃ m2, canonicalPhase content = fieldSpecs.foldl (applyField content) (m2, []) :=
    ⟨_, rfl⟩
  obtain ⟨m2, hm2⟩ := hbase
  rw [hm2]
  apply applyField_coherent content fieldSpecs (fun g hg => hg) (m2, [])
  intro f _ v u hget
  exact absurd hget (by simp [dictGet?])

theorem dictContains_of_get {α : Type} (d : List (String × α)) (k : String) (x : α)
    (h : dictGet? d k = some x) : dictContains d k = true := by
  cases hc : dictContains d k
  · rw [dictGet?_of_not_contains d k hc] at h
    cases h
  · rfl

/-- C9: `_parse_content` is total (the embedding is a function) and
returns the record with the given filename and parse timestamp; every
numeric capture the patterns can hand to `float` parses successfully
(it is digits optionally followed by a dot and digits); and every
canonical field stored in `metrics` equals the field's normalization
function applied to the value/unit pair recorded in `raw_metrics`. -/
theorem C9_parse_content_coherent (now content filename : String) :
    ((_parse_content now content filename).filename = filename ∧
     (_parse_content now content filename).parsed_timestamp = now) ∧
    (∀ units cs cap u, matchNumUnit units cs = some (cap, u) →
      (pyFloat (String.mk cap)).isSome = true) ∧
    (∀ f ∈ fieldSpecs, ∀ v u,
      dictGet? (_parse_content now content filename).raw_metrics f.rawKey = some ⟨v, u⟩ →
      dictGet? (_parse_content now content filename).metrics f.metricKey =
        some (.num (f.normalize v u))) := by
  refine ⟨⟨rfl, rfl⟩, fun units cs cap u h => matchNumUnit_pyFloat_isSome units cs cap u h, ?_⟩
  intro f hf v u hget
  have hraw : dictGet? (canonicalPhase content).2 f.rawKey = some ⟨v, u⟩ := hget
  have hcanon := canonicalPhase_coherent content f hf v u hraw
  have hcontains := dictContains_of_get _ _ _ hcanon
  show dictGet? ((splitLines content).foldl passthroughStep (canonicalPhase content).1)
    f.metricKey = _
  rw [passthrough_lookup (splitLines content) (canonicalPhase content).1 f.metricKey,
    if_pos hcontains]
  exact hcanon

/-- C9 witness: parsing `CPU Power: 7 mW` stores the raw pair
`(float('7'), 'mW')` and the normalized metric
`_normalize_power(float('7'), 'mW')` under `cpu_power_mw`; the capture
`'7'` parses as a float. -/
theorem C9_parse_content_coherent_witness :
    (_parse_content "t0" "CPU Power: 7 mW" "r.report.avgpwr").filename = "r.report.avgpwr" ∧
    (pyFloat (String.mk ['7'])).isSome = true ∧
    dictGet? (_parse_content "t0" "CPU Power: 7 mW" "r.report.avgpwr").raw_metrics "cpu" =
      some ⟨(pyFloat "7").getD 0, "mW"⟩ ∧
    dictGet? (_parse_content "t0" "CPU Power: 7 mW" "r.report.avgpwr").metrics
      "cpu_power_mw" = some (.num (_normalize_power ((pyFloat "7").getD 0) "mW")) := by
  have hmem : (⟨"cpu", "cpu_power_mw", ["CPU", "Power"], ["mW", "W", "µW"],
      _normalize_power⟩ : FieldSpec) ∈ fieldSpecs := by
    unfold fieldSpecs
    exact List.mem_cons_of_mem _ (List.mem_cons_self _ _)
  have hraw : dictGet? (_parse_content "t0" "CPU Power: 7 mW"
      "r.report.avgpwr").raw_metrics "cpu" = some ⟨(pyFloat "7").getD 0, "mW"⟩ := by
    with_unfolding_all rfl
  refine ⟨(C9_parse_content_coherent "t0" "CPU Power: 7 mW" "r.report.avgpwr").1.1,
    (C9_parse_content_coherent "t0" "x" "y").2.1
      [['m', 'W'], ['W'], ['µ', 'W']] ("7 mW".toList) ['7'] ['m', 'W'] (by with_unfolding_all rfl),
    hraw,
    (C9_parse_content_coherent "t0" "CPU Power: 7 mW" "r.report.avgpwr").2.2
      _ hmem ((pyFloat "7").getD 0) "mW" hraw⟩

/-! ## Claim C10: dashboard renderer on missing metrics -/

/-- C10 counterexample: the renderer is *not* total on every
parsed_data dictionary: the real content `total power mw: hello` makes
the passthrough loop store the string `"hello"` under the numeric key
`total_power_mw`, and `generate_html_dashboard` then raises `TypeError`
(`'hello' > 10000` / `'{:.2f}'.format('hello')`) instead of producing a
document. -/
theorem C10_renderer_counterexample :
    generate_html_dashboard "t0"
      (_parse_content "t0" "total power mw: hello" "f.report.avgpwr") =
      .error "TypeError" := by
  with_unfolding_all rfl

theorem mvNum_ok_of_numeric (m : List (String × MVal)) (k : String)
    (h : ∀ s, dictGet? m k ≠ some (.str s)) :
    ∃ q, mvNum (mGetD m k (.num 0)) = .ok q := by
  unfold mGetD
  cases hg : dictGet? m k with
  | none => exact ⟨0, rfl⟩
  | some mv =>
    cases mv with
    | num q => exact ⟨q, rfl⟩
    | str s => exact absurd hg (h s)

/-- C10 (amended): the renderer is total and division-safe on every
parsed_data whose seven numeric metric keys hold numbers or are absent
(which excludes only the string-typed passthrough collision of the
counterexample): it returns an HTML document built from `html_parts`
with every missing numeric metric defaulting to `0`, a missing
timestamp rendering as `N/A`, a missing device as `Unknown Device`, and
every breakdown percentage equal to `value/total*100` when `total > 0`
and exactly `0` when `total ≤ 0` (no division by zero). -/
theorem C10_renderer_total_division_safe (now : String) (pd : ParsedData)
    (hnumeric : ∀ k ∈ ["total_power_mw", "cpu_power_mw", "gpu_power_mw", "memory_power_mw",
      "frequency_mhz", "voltage_v", "temperature_c"],
      ∀ s, dictGet? pd.metrics k ≠ some (.str s)) :
    (∃ tp cpu gpu mem fr vo te : ℚ, generate_html_dashboard now pd =
      .ok (strJoin "\x0a" (html_parts now pd.filename tp cpu gpu mem fr vo te
        (mGetD pd.metrics "timestamp" (.str "N/A"))
        (mGetD pd.metrics "device_name" (.str "Unknown Device"))))) ∧
    (dictGet? pd.metrics "timestamp" = none →
      mGetD pd.metrics "timestamp" (.str "N/A") = .str "N/A") ∧
    (dictGet? pd.metrics "device_name" = none →
      mGetD pd.metrics "device_name" (.str "Unknown Device") = .str "Unknown Device") ∧
    (dictGet? pd.metrics "total_power_mw" = none →
      mvNum (mGetD pd.metrics "total_power_mw" (.num 0)) = .ok 0) ∧
    (∀ tp cpu gpu mem fr vo te : ℚ, ∀ ts dev : MVal,
      ("            <div class=\"dashboard-subtitle\">Report Time: " ++ mvalText ts ++
        "</div>") ∈ html_parts now pd.filename tp cpu gpu mem fr vo te ts dev) ∧
    (∀ v t : ℚ, 0 < t → breakdownPercentage v t = v / t * 100) ∧
    (∀ v t : ℚ, t ≤ 0 → breakdownPercentage v t = 0) := by
  refine ⟨?_, ?_, ?_, ?_, ?_, ?_, ?_⟩
  · obtain ⟨q1, h1⟩ := mvNum_ok_of_numeric pd.metrics "total_power_mw"
      (hnumeric _ (by simp))
    obtain ⟨q2, h2⟩ := mvNum_ok_of_numeric pd.metrics "cpu_power_mw"
      (hnumeric _ (by simp))
    obtain ⟨q3, h3⟩ := mvNum_ok_of_numeric pd.metrics "gpu_power_mw"
      (hnumeric _ (by simp))
    obtain ⟨q4, h4⟩ := mvNum_ok_of_numeric pd.metrics "memory_power_mw"
      (hnumeric _ (by simp))
    obtain ⟨q5, h5⟩ := mvNum_ok_of_numeric pd.metrics "frequency_mhz"
      (hnumeric _ (by simp))
    obtain ⟨q6, h6⟩ := mvNum_ok_of_numeric pd.metrics "voltage_v"
      (hnumeric _ (by simp))
    obtain ⟨q7, h7⟩ := mvNum_ok_of_numeric pd.metrics "temperature_c"
      (hnumeric _ (by simp))
    refine ⟨q1, q2, q3, q4, q5, q6, q7, ?_⟩
    unfold generate_html_dashboard
    dsimp only
    rw [h1, except_bind_ok, h2, except_bind_ok, h3, except_bind_ok, h4, except_bind_ok,
      h5, except_bind_ok, h6, except_bind_ok, h7, except_bind_ok]
    rfl
  · intro h
    unfold mGetD
    rw [h]
    rfl
  · intro h
    unfold mGetD
    rw [h]
    rfl
  · intro h
    unfold mGetD
    rw [h]
    rfl
  · intro tp cpu gpu mem fr vo te ts dev
    simp [html_parts]
  · intro v t ht
    unfold breakdownPercentage
    rw [if_pos ht]
  · intro v t ht
    unfold breakdownPercentage
    rw [if_neg (not_lt.mpr ht)]

/-- C10 witness: the empty-metrics parsed_data renders to a document
with all defaults, and the percentage guard at `total = 0`. -/
theorem C10_renderer_total_division_safe_witness :
    (∃ tp cpu gpu mem fr vo te : ℚ,
      generate_html_dashboard "t0" ⟨"f.report.avgpwr", "t0", [], []⟩ =
      .ok (strJoin "\x0a" (html_parts "t0" "f.report.avgpwr" tp cpu gpu mem fr vo te
        (mGetD [] "timestamp" (.str "N/A")) (mGetD [] "device_name" (.str "Unknown Device"))))) ∧
    mGetD ([] : List (String × MVal)) "timestamp" (.str "N/A") = .str "N/A" ∧
    mvNum (mGetD ([] : List (String × MVal)) "total_power_mw" (.num 0)) = .ok 0 ∧
    breakdownPercentage 1 2 = 1 / 2 * 100 ∧
    breakdownPercentage 5 0 = 0 := by
  have hnumeric : ∀ k ∈ ["total_power_mw", "cpu_power_mw", "gpu_power_mw", "memory_power_mw",
      "frequency_mhz", "voltage_v", "temperature_c"],
      ∀ s, dictGet? (⟨"f.report.avgpwr", "t0", [], []⟩ : ParsedData).metrics k ≠
        some (.str s) := by
    intro k _ s
    simp [dictGet?]
  have hthm := C10_renderer_total_division_safe "t0" ⟨"f.report.avgpwr", "t0", [], []⟩ hnumeric
  exact ⟨hthm.1, hthm.2.1 rfl, hthm.2.2.2.1 rfl,
    hthm.2.2.2.2.2.1 1 2 (by decide), hthm.2.2.2.2.2.2 5 0 (by decide)⟩
